import Mathlib

/-
  Verification of the puzzle-session core of chess-tactics-cli (src/main.rs).

  The program is embedded shallowly: the session state machine, prompt
  classification and rating-argument handling are translated from main.rs.
  The chess library (shakmaty) is an external collaborator; it is embedded
  as an abstract interface (`Engine`) whose operations the core calls,
  exactly as the source does.
-/

set_option autoImplicit false

namespace ChessTactics

/-- Side to move, as used by the program through the chess library. -/
inductive Color : Type where
  | white
  | black
deriving DecidableEq

/-- Rendering of a side name, from print_side in main.rs. -/
def print_side (side : Color) : String :=
  match side with
  | .white => "White"
  | .black => "Black"

/-- Modelled from the spec: the interface of the external Position Engine
(the chess library), which the program consumes and never implements
(spec sections 1 and 2). `fenToPosition` covers fen parsing plus position
construction, `uciToMove` covers coordinate-notation parsing plus
conversion to a move in a position, `sanFromMove` is San::from_move
rendered to a string, `sanToMove` is San::to_move for a rendered string,
`play` applies a move, `turn` reads the side to move, `epd` and `render`
are the textual and board renderings. -/
structure Engine (Pos Mv : Type) where
  fenToPosition : String → Option Pos
  turn : Pos → Color
  uciToMove : String → Pos → Option Mv
  play : Pos → Mv → Option Pos
  sanFromMove : Pos → Mv → String
  sanToMove : String → Pos → Option Mv
  epd : Pos → String
  render : Pos → String

/-- One line of user input, classified; the PromptResponse enum of main.rs. -/
inductive PromptResponse : Type where
  | showBoard
  | noResponse
  | printFen
  | help
  | hintPiece
  | move (text : String)
deriving DecidableEq

/-- Pure classification of one input line, from the match inside
get_prompt_response in main.rs (lines 168 to 175). -/
def classify_reply (reply : String) : PromptResponse :=
  if reply = "s" ∨ reply = "show" then .showBoard
  else if reply = "f" ∨ reply = "fen" then .printFen
  else if reply = "?" ∨ reply = "help" then .help
  else if reply = "" then .noResponse
  else .move reply

/-- The ChessTactic record deserialized from the Puzzle Source (main.rs). -/
structure ChessTactic where
  id : String
  moves : List String
  fen : String
  popularity : Int
  tags : List String
  game_link : String
  rating : Int
  rating_deviation : Int
  number_plays : Int
deriving DecidableEq

/-- The request sent to the Puzzle Source (main.rs). -/
structure ChessTacticRequest where
  rating_gte : Option Int
  rating_lte : Option Int
  tags : List String
deriving DecidableEq

/-- Numeric value of a run of decimal digit characters, most significant first. -/
def decimalValue (ds : List Char) : Int :=
  ds.foldl (fun acc c => acc * 10 + ((c.toNat : Int) - 48)) 0

/-- Rust str::parse::<i32>: an optional sign, then one or more decimal
digits, nothing else, and the value must fit in a 32-bit signed integer. -/
def parseI32 (s : String) : Option Int :=
  let signDigits : Int × List Char :=
    match s.data with
    | '+' :: rest => (1, rest)
    | '-' :: rest => (-1, rest)
    | _ => (1, s.data)
  let ds := signDigits.2
  if ds ≠ [] ∧ ds.all (fun c => c.isDigit) then
    let v : Int := signDigits.1 * decimalValue ds
    if -(2 ^ 31) ≤ v ∧ v ≤ 2 ^ 31 - 1 then some v else none
  else none

/-- Rust str::split on a one-character separator: the pieces between the
separators, with empty pieces kept, so that a string with no separator
yields one piece and a lone separator yields two empty pieces. -/
def splitOnChar (sep : Char) : List Char → List (List Char)
  | [] => [[]]
  | c :: rest =>
    if c = sep then [] :: splitOnChar sep rest
    else
      match splitOnChar sep rest with
      | [] => [[c]]
      | g :: gs => (c :: g) :: gs

/-- The split of the rating argument on the dash, rating.split in main.rs. -/
def splitDash (s : String) : List String :=
  (splitOnChar '-' s.data).map (fun l => String.mk l)

/-- The rating-bound computation of main.rs (lines 38 to 58). The parsed
tuple on line 48 ends in a discarded statement, so a well-formed range
still yields (some 0, some 0); parse failures and a missing second part
panic, modelled as Except.error. -/
def ratingBounds (rating : Option String) : Except String (Option Int × Option Int) :=
  match rating with
  | none => .ok (none, none)
  | some r =>
    let parts := splitDash r
    match parts[0]?, parts[1]? with
    | some first, some second =>
      match parseI32 first with
      | none => .error ("Failed to parse " ++ first ++ " as a rating")
      | some _ =>
        match parseI32 second with
        | none => .error ("Failed to parse " ++ second ++ " as a rating")
        | some _ => .ok (some 0, some 0)
    | _, _ => .error "Could not parse rating, make sure it is in the form 500-1200"
/-- Construction of the Puzzle Source request in main.rs (lines 59 to 63):
the request only comes into being when the rating bounds were computed
without aborting. -/
def mainRequest (ratingArg : Option String) (tags : List String) :
    Except String ChessTacticRequest :=
  match ratingBounds ratingArg with
  | .error e => .error e
  | .ok (lo, hi) => .ok (ChessTacticRequest.mk lo hi tags)

/-- The mutable state threaded through the loop of main.rs: the current
position, the iterator over the not-yet-consumed moves, the move pulled
from the iterator and awaiting the user, and the opponent side captured
before the setup move. -/
structure Session (Pos Mv : Type) where
  position : Pos
  remaining : List String
  nextMove : Mv
  theirSide : Color
deriving DecidableEq

/-- Outcome of one loop iteration of main.rs: re-prompt with a state
(`continue`), advance to a new awaited move, break out completed, or hit
an unwrap panic (`fatal`). -/
inductive StepResult (Pos Mv : Type) where
  | again (s : Session Pos Mv)
  | next (s : Session Pos Mv)
  | completed (finalPos : Pos)
  | fatal
deriving DecidableEq

/-- Session construction in main.rs (lines 66 to 85): parse the fen,
capture the side to move, apply the puzzle move at index 0 unconditionally,
and pull the move at index 1 as the first awaited move. Any failure is an
unwrap panic, modelled as none. -/
def sessionInit {Pos Mv : Type} (E : Engine Pos Mv) (t : ChessTactic) :
    Option (Session Pos Mv) :=
  match E.fenToPosition t.fen with
  | none => none
  | some pos0 =>
    match t.moves[0]? with
    | none => none
    | some firstUci =>
      match E.uciToMove firstUci pos0 with
      | none => none
      | some firstMove =>
        match E.play pos0 firstMove with
        | none => none
        | some p1 =>
          match t.moves[1]? with
          | none => none
          | some secondUci =>
            match E.uciToMove secondUci p1 with
            | none => none
            | some nm => some (Session.mk p1 (t.moves.drop 2) nm (E.turn pos0))

/-- The resolve-ply tail of the loop body in main.rs (lines 117 to 152):
convert the rendered expected move back to a move, play it, then pull the
next iterator entry; if present, play it as the scripted reply (with the
correct-or-reveal message) and pull yet another entry unconditionally;
if absent, break out completed. -/
def resolvePly {Pos Mv : Type} (E : Engine Pos Mv) (s : Session Pos Mv)
    (san : String) (correct : Bool) : StepResult Pos Mv × List String :=
  match E.sanToMove san s.position with
  | none => (.fatal, [])
  | some reply =>
    match E.play s.position reply with
    | none => (.fatal, [])
    | some p1 =>
      match s.remaining with
      | respUci :: rest =>
        match E.uciToMove respUci p1 with
        | none => (.fatal, [])
        | some resp =>
          let pfx := if correct then "Correct! " else "The correct move was " ++ (san ++ ". ")
          let msg := pfx ++ (print_side s.theirSide ++ (" responds with " ++ E.sanFromMove p1 resp))
          match E.play p1 resp with
          | none => (.fatal, [msg])
          | some p2 =>
            match rest with
            | [] => (.fatal, [msg])
            | nextUci :: rest2 =>
              match E.uciToMove nextUci p2 with
              | none => (.fatal, [msg])
              | some nm => (.next (Session.mk p2 rest2 nm s.theirSide), [msg])
      | [] =>
        let pfx := if correct then "Correct! " else ""
        (.completed p1, [pfx ++ "Completed this tactic."])

/-- One iteration of the loop in main.rs (lines 86 to 153), given the
classified input: peripheral commands print and re-prompt with the state
untouched; a wrong attempted move prints a rejection and re-prompts; a
correct attempt, a no-input reveal and the dead hint variant fall through
to the resolve-ply tail. -/
def sessionStep {Pos Mv : Type} (E : Engine Pos Mv) (s : Session Pos Mv)
    (c : PromptResponse) : StepResult Pos Mv × List String :=
  let san := E.sanFromMove s.position s.nextMove
  match c with
  | .showBoard => (.again s, [E.render s.position])
  | .help => (.again s, ["help table"])
  | .printFen => (.again s, [E.epd s.position])
  | .noResponse => resolvePly E s san false
  | .hintPiece => resolvePly E s san false
  | .move mi =>
    if mi = san then resolvePly E s san true
    else (.again s, [mi ++ " is not the correct move"])

/-- Commands that only render: show-board, print-notation and help. -/
def isPeripheral (c : PromptResponse) : Bool :=
  match c with
  | .showBoard => true
  | .printFen => true
  | .help => true
  | _ => false

/-- Where a multi-command run of the session loop can stand afterwards. -/
inductive MultiOutcome (Pos Mv : Type) where
  | awaiting (s : Session Pos Mv)
  | completed (finalPos : Pos)
  | fatal
deriving DecidableEq

/-- Feed a list of classified inputs through the loop of main.rs, one
iteration per command; completion and panics are terminal. -/
def runCommands {Pos Mv : Type} (E : Engine Pos Mv) :
    Session Pos Mv → List PromptResponse → MultiOutcome Pos Mv
  | s, [] => .awaiting s
  | s, c :: cs =>
    match sessionStep E s c with
    | (.again s', _) => runCommands E s' cs
    | (.next s', _) => runCommands E s' cs
    | (.completed p, _) => .completed p
    | (.fatal, _) => .fatal

/-- Result of driving a session while always typing the expected move:
how many attempted moves were submitted, the final position on completion,
and the informational lines printed along the way. -/
inductive RunOutcome (Pos : Type) where
  | completed (attempts : Nat) (finalPos : Pos) (output : List String)
  | fatal (attempts : Nat) (output : List String)
  | fuelOut
deriving DecidableEq

/-- Drive the loop of main.rs supplying, at every prompt, exactly the
rendering of the expected move (a user who is always right). Fuel bounds
the number of iterations. -/
def runAllCorrect {Pos Mv : Type} (E : Engine Pos Mv) :
    Nat → Session Pos Mv → RunOutcome Pos
  | 0, _ => .fuelOut
  | fuel + 1, s =>
    match sessionStep E s (.move (E.sanFromMove s.position s.nextMove)) with
    | (.again s', out) =>
      match runAllCorrect E fuel s' with
      | .completed a p o => .completed (a + 1) p (out ++ o)
      | .fatal a o => .fatal (a + 1) (out ++ o)
      | .fuelOut => .fuelOut
    | (.next s', out) =>
      match runAllCorrect E fuel s' with
      | .completed a p o => .completed (a + 1) p (out ++ o)
      | .fatal a o => .fatal (a + 1) (out ++ o)
      | .fuelOut => .fuelOut
    | (.completed p, out) => .completed 1 p out
    | (.fatal, out) => .fatal 1 out

/-- Sequential application of a list of coordinate-notation moves to a
position, each parsed in the position it is played from. -/
def applyUcis {Pos Mv : Type} (E : Engine Pos Mv) : Pos → List String → Option Pos
  | p, [] => some p
  | p, u :: rest =>
    match E.uciToMove u p with
    | none => none
    | some m =>
      match E.play p m with
      | none => none
      | some p2 => applyUcis E p2 rest

/-- The puzzle line ahead of a session state is playable: the awaited move
survives the san round trip of the resolve-ply step and applies, and the
not-yet-pulled moves parse and apply in the alternating pattern the loop
consumes them in (scripted reply, then the next awaited move). -/
def lineOk {Pos Mv : Type} [DecidableEq Mv] (E : Engine Pos Mv) :
    Pos → Mv → List String → Bool
  | p, pending, [] =>
    match E.sanToMove (E.sanFromMove p pending) p with
    | none => false
    | some rt =>
      rt = pending &&
      match E.play p pending with
      | none => false
      | some _ => true
  | p, pending, [respUci] =>
    match E.sanToMove (E.sanFromMove p pending) p with
    | none => false
    | some rt =>
      rt = pending &&
      match E.play p pending with
      | none => false
      | some p1 =>
        match E.uciToMove respUci p1 with
        | none => false
        | some resp =>
          match E.play p1 resp with
          | none => false
          | some _ => true
  | p, pending, respUci :: nextUci :: rest2 =>
    match E.sanToMove (E.sanFromMove p pending) p with
    | none => false
    | some rt =>
      rt = pending &&
      match E.play p pending with
      | none => false
      | some p1 =>
        match E.uciToMove respUci p1 with
        | none => false
        | some resp =>
          match E.play p1 resp with
          | none => false
          | some p2 =>
            match E.uciToMove nextUci p2 with
            | none => false
            | some nm => lineOk E p2 nm rest2

/-- The session states the loop of main.rs can stand in: the state built
by session construction, and anything reached from it by re-prompting or
by a resolved ply that continues. -/
inductive Reachable {Pos Mv : Type} (E : Engine Pos Mv) (t : ChessTactic) :
    Session Pos Mv → Prop where
  | init (s : Session Pos Mv) : sessionInit E t = some s → Reachable E t s
  | again (s s' : Session Pos Mv) (c : PromptResponse) (out : List String) :
      Reachable E t s → sessionStep E s c = (.again s', out) → Reachable E t s'
  | advance (s s' : Session Pos Mv) (c : PromptResponse) (out : List String) :
      Reachable E t s → sessionStep E s c = (.next s', out) → Reachable E t s'

/-- The session invariant of spec section 3: the current position is the
result of applying, in order, the prefix of the puzzle moves consumed so
far to the starting position, the awaited move is the next unconsumed
entry, and the iterator holds exactly the rest. -/
def SessionInv {Pos Mv : Type} (E : Engine Pos Mv) (pos0 : Pos)
    (moves : List String) (s : Session Pos Mv) : Prop :=
  ∃ consumed pendingUci,
    moves = consumed ++ pendingUci :: s.remaining ∧
    consumed ≠ [] ∧
    applyUcis E pos0 consumed = some s.position ∧
    E.uciToMove pendingUci s.position = some s.nextMove

/-- A line carries the Correct! marker: its text begins with the
characters of Correct!. -/
def startsWithCorrect (line : String) : Prop :=
  ∃ t : List Char, "Correct!".data ++ t = line.data

/-- Whether a run outcome is the completed terminal state. -/
def RunOutcome.isCompleted {Pos : Type} : RunOutcome Pos → Bool
  | .completed _ _ _ => true
  | _ => false

/-- The standard starting position in fen form. -/
def startFen : String := "rnbqkbnr/pppppppp/8/8/8/8/PPPPPPPP/RNBQKBNR w KQkq - 0 1"

/-- Modelled from the spec: the external Position Engine evaluated on the
scenario line of spec section 8 (puzzle e2e4, e7e5, g1f3 from the standard
starting position, whose renderings the spec states: the expected move
after the setup renders as e5, and g1f3 renders as Nf3) and on a position
whose expected move renders as Qxd7 (spec section 8, exact-match
sensitivity). Positions are numbered along the line: 0 start, 1 after
e2e4, 2 after e7e5, 3 after g1f3; 10 is the Qxd7 position. -/
def specSanTable (p : Nat) (m : String) : Option String :=
  match p, m with
  | 0, "e2e4" => some "e4"
  | 1, "e7e5" => some "e5"
  | 2, "g1f3" => some "Nf3"
  | 10, "d1d7" => some "Qxd7"
  | _, _ => none

/-- Modelled from the spec: a concrete instance of the Position Engine for
the scenario line, built from specSanTable; a move is playable exactly
when the table renders it. -/
def specEngine : Engine Nat String where
  fenToPosition f := if f = startFen then some 0 else none
  turn p := if p % 2 = 0 then .white else .black
  uciToMove u p := if (specSanTable p u).isSome then some u else none
  play p m := if (specSanTable p m).isSome then some (p + 1) else none
  sanFromMove p m := (specSanTable p m).getD ("raw " ++ m)
  sanToMove s p :=
    match p, s with
    | 0, "e4" => some "e2e4"
    | 1, "e5" => some "e7e5"
    | 2, "Nf3" => some "g1f3"
    | 10, "Qxd7" => some "d1d7"
    | _, _ => none
  epd _ := "epd rendering"
  render _ := "board rendering"

/-- A generic instance of the Position Engine interface in which every
move applies, rendering is the identity on the coordinate text, and the
san round trip holds definitionally; used to instantiate the parametric
theorems on concrete sessions. -/
def idEngine : Engine Nat String where
  fenToPosition _ := some 0
  turn p := if p % 2 = 0 then .white else .black
  uciToMove u _ := some u
  play p _ := some (p + 1)
  sanFromMove _ m := m
  sanToMove s _ := some s
  epd _ := "epd rendering"
  render _ := "board rendering"

/-- The scenario puzzle of spec section 8: moves e2e4, e7e5, g1f3 from the
standard starting position. -/
def scenarioTactic : ChessTactic where
  id := "scenario"
  moves := ["e2e4", "e7e5", "g1f3"]
  fen := startFen
  popularity := 0
  tags := []
  game_link := ""
  rating := 1000
  rating_deviation := 0
  number_plays := 0

/-- The session state the scenario puzzle is constructed into: position
after e2e4, awaiting e7e5, with g1f3 still in the iterator. -/
def scenarioSession : Session Nat String :=
  Session.mk 1 ["g1f3"] "e7e5" Color.white

/-- A session of the scenario engine at the position whose expected move
renders as Qxd7, with nothing left in the iterator. -/
def qxd7Session : Session Nat String :=
  Session.mk 10 [] "d1d7" Color.white

/-- A four-move puzzle for the generic engine instance. -/
def evenTactic : ChessTactic where
  id := "even"
  moves := ["a", "b", "c", "d"]
  fen := "any"
  popularity := 0
  tags := []
  game_link := ""
  rating := 1000
  rating_deviation := 0
  number_plays := 0

/-
  Helper lemmas about the embedded definitions.
-/

/-- Appending strings appends their character lists. -/
theorem data_append (a b : String) : (a ++ b).data = a.data ++ b.data := rfl

/-- A line whose first eight characters differ from those of Correct!
does not carry the marker. -/
theorem not_startsWithCorrect (line : String)
    (h : line.data.take 8 ≠ "Correct!".data) : ¬ startsWithCorrect line := by
  rintro ⟨t, ht⟩
  apply h
  rw [← ht]
  exact List.take_left' (by decide)

/-- Reveal messages open with the words The correct move was, so they
never carry the Correct! marker. -/
theorem reveal_msg_not_marked (san rest : String) :
    ¬ startsWithCorrect (("The correct move was " ++ (san ++ ". ")) ++ rest) := by
  apply not_startsWithCorrect
  rw [data_append, data_append, List.append_assoc]
  have h21 : ("The correct move was ").data = "The corr".data ++ "ect move was ".data := by
    decide
  rw [h21, List.append_assoc, List.take_left' (by decide)]
  decide

/-- The bare completion line does not carry the Correct! marker. -/
theorem completion_line_not_marked : ¬ startsWithCorrect "Completed this tactic." := by
  apply not_startsWithCorrect
  decide

/-- The resolve-ply step never re-prompts: its result is an advance, a
completion or an abort, whatever the correctness flag was. -/
theorem resolvePly_not_again {Pos Mv : Type} (E : Engine Pos Mv) (s : Session Pos Mv)
    (san : String) (b : Bool) (s' : Session Pos Mv) :
    (resolvePly E s san b).1 ≠ .again s' := by
  cases hm : E.sanToMove san s.position with
  | none => simp [resolvePly, hm]
  | some reply =>
    cases hp : E.play s.position reply with
    | none => simp [resolvePly, hm, hp]
    | some p1 =>
      cases hr : s.remaining with
      | nil => simp [resolvePly, hm, hp, hr]
      | cons respUci rest =>
        cases hu : E.uciToMove respUci p1 with
        | none => simp [resolvePly, hm, hp, hr, hu]
        | some resp =>
          cases hp2 : E.play p1 resp with
          | none => simp [resolvePly, hm, hp, hr, hu, hp2]
          | some p2 =>
            cases rest with
            | nil => simp [resolvePly, hm, hp, hr, hu, hp2]
            | cons nextUci rest2 =>
              cases hu2 : E.uciToMove nextUci p2 with
              | none => simp [resolvePly, hm, hp, hr, hu, hp2, hu2]
              | some nm => simp [resolvePly, hm, hp, hr, hu, hp2, hu2]

/-- The state and control outcome of the resolve-ply step do not depend
on the correctness flag; only the printed words do. -/
theorem resolvePly_result_eq {Pos Mv : Type} (E : Engine Pos Mv) (s : Session Pos Mv)
    (san : String) (b b' : Bool) :
    (resolvePly E s san b).1 = (resolvePly E s san b').1 := by
  cases hm : E.sanToMove san s.position with
  | none => simp [resolvePly, hm]
  | some reply =>
    cases hp : E.play s.position reply with
    | none => simp [resolvePly, hm, hp]
    | some p1 =>
      cases hr : s.remaining with
      | nil => simp [resolvePly, hm, hp, hr]
      | cons respUci rest =>
        cases hu : E.uciToMove respUci p1 with
        | none => simp [resolvePly, hm, hp, hr, hu]
        | some resp =>
          cases hp2 : E.play p1 resp with
          | none => simp [resolvePly, hm, hp, hr, hu, hp2]
          | some p2 =>
            cases rest with
            | nil => simp [resolvePly, hm, hp, hr, hu, hp2]
            | cons nextUci rest2 =>
              cases hu2 : E.uciToMove nextUci p2 with
              | none => simp [resolvePly, hm, hp, hr, hu, hp2, hu2]
              | some nm => simp [resolvePly, hm, hp, hr, hu, hp2, hu2]

/-
  Claim theorems.
-/

/-- Claim C8: the prompt dispatcher classifies, case-sensitively, s and
show to show-board, f and fen to print-notation, the question mark and
help to help, the empty line to no-input, and every other line to an
attempted move carrying the raw text verbatim. -/
theorem classify_reply_cases :
    classify_reply "s" = .showBoard ∧ classify_reply "show" = .showBoard ∧
    classify_reply "f" = .printFen ∧ classify_reply "fen" = .printFen ∧
    classify_reply "?" = .help ∧ classify_reply "help" = .help ∧
    classify_reply "" = .noResponse ∧
    ∀ x : String, x ≠ "s" → x ≠ "show" → x ≠ "f" → x ≠ "fen" → x ≠ "?" →
      x ≠ "help" → x ≠ "" → classify_reply x = .move x := by
  refine ⟨by decide, by decide, by decide, by decide, by decide, by decide, by decide, ?_⟩
  intro x h1 h2 h3 h4 h5 h6 h7
  simp [classify_reply, h1, h2, h3, h4, h5, h6, h7]

/-- Witness for C8: the move text S, differing from the show keyword only
in case, classifies as an attempted move, verbatim. -/
theorem classify_reply_cases_witness : classify_reply "S" = .move "S" :=
  classify_reply_cases.2.2.2.2.2.2.2 "S" (by decide) (by decide) (by decide)
    (by decide) (by decide) (by decide) (by decide)

/-- Claim C2: whenever the rating argument splits into two integer parts,
the request carries rating bounds some 0 and some 0 regardless of the
parsed values, and with no rating argument it carries none and none. -/
theorem rating_request_constant_bounds :
    (∀ (r : String) (tags : List String) (first second : String) (lo hi : Int),
      (splitDash r)[0]? = some first →
      (splitDash r)[1]? = some second →
      parseI32 first = some lo → parseI32 second = some hi →
      mainRequest (some r) tags = .ok (ChessTacticRequest.mk (some 0) (some 0) tags)) ∧
    (∀ tags : List String, mainRequest none tags = .ok (ChessTacticRequest.mk none none tags)) := by
  constructor
  · intro r tags first second lo hi h0 h1 hp0 hp1
    simp [mainRequest, ratingBounds, h0, h1, hp0, hp1]
  · intro tags
    rfl

/-- Witness for C2: the range 600-1400 parses, yet the request carries
bounds 0 and 0. -/
theorem rating_request_constant_bounds_witness :
    mainRequest (some "600-1400") ["fork"] =
      .ok (ChessTacticRequest.mk (some 0) (some 0) ["fork"]) :=
  rating_request_constant_bounds.1 "600-1400" ["fork"] "600" "1400" 600 1400
    (by decide) (by decide) (by decide) (by decide)

/-- Claim C9: a rating argument that lacks a second dash-separated part,
or either of whose parts does not parse as an integer, aborts with a
diagnostic before any puzzle request value exists. -/
theorem malformed_rating_aborts (r : String) (tags : List String)
    (h : (splitDash r)[1]? = none ∨
      (∃ a, (splitDash r)[0]? = some a ∧ parseI32 a = none) ∨
      (∃ b, (splitDash r)[1]? = some b ∧ parseI32 b = none)) :
    ∃ e, mainRequest (some r) tags = .error e := by
  rcases h with h1 | ⟨a, ha, hpa⟩ | ⟨b, hb, hpb⟩
  · cases h0 : (splitDash r)[0]? with
    | none =>
      exact ⟨"Could not parse rating, make sure it is in the form 500-1200",
        by simp [mainRequest, ratingBounds, h0, h1]⟩
    | some a =>
      exact ⟨"Could not parse rating, make sure it is in the form 500-1200",
        by simp [mainRequest, ratingBounds, h0, h1]⟩
  · cases h1 : (splitDash r)[1]? with
    | none =>
      exact ⟨"Could not parse rating, make sure it is in the form 500-1200",
        by simp [mainRequest, ratingBounds, ha, h1]⟩
    | some second =>
      exact ⟨"Failed to parse " ++ a ++ " as a rating",
        by simp [mainRequest, ratingBounds, ha, h1, hpa]⟩
  · cases h0 : (splitDash r)[0]? with
    | none =>
      exact ⟨"Could not parse rating, make sure it is in the form 500-1200",
        by simp [mainRequest, ratingBounds, h0]⟩
    | some a =>
      cases hpa : parseI32 a with
      | none =>
        exact ⟨"Failed to parse " ++ a ++ " as a rating",
          by simp [mainRequest, ratingBounds, h0, hb, hpa]⟩
      | some x =>
        exact ⟨"Failed to parse " ++ b ++ " as a rating",
          by simp [mainRequest, ratingBounds, h0, hb, hpa, hpb]⟩

/-- Witness for C9: the argument abc has no dash-separated second part
and the process aborts before a request exists. -/
theorem malformed_rating_aborts_witness :
    ∃ e, mainRequest (some "abc") [] = .error e :=
  malformed_rating_aborts "abc" [] (Or.inl (by decide))

/-- Claim C4: an attempted move whose text differs from the rendering of
the expected move is answered by a rejection naming the submitted text,
and the whole session state, including the awaited move and the iterator,
is returned untouched for a re-prompt. -/
theorem wrong_move_rejected {Pos Mv : Type} (E : Engine Pos Mv) (s : Session Pos Mv)
    (t : String) (h : t ≠ E.sanFromMove s.position s.nextMove) :
    sessionStep E s (.move t) = (.again s, [t ++ " is not the correct move"]) := by
  simp [sessionStep, h]

/-- Witness for C4: the spec scenario rejection, Nf3 typed at the e5
prompt, leaves the scenario session untouched. -/
theorem wrong_move_rejected_witness :
    sessionStep specEngine scenarioSession (.move "Nf3") =
      (.again scenarioSession, ["Nf3" ++ " is not the correct move"]) :=
  wrong_move_rejected specEngine scenarioSession "Nf3" (by decide)

/-- Claim C5: any number of show-board, print-notation and help commands,
in any order, leave the session awaiting the same expected move with the
position and the iterator untouched, and none of them counts as an
attempt. -/
theorem peripheral_commands_frame {Pos Mv : Type} (E : Engine Pos Mv) (s : Session Pos Mv)
    (cs : List PromptResponse) (h : ∀ c ∈ cs, isPeripheral c = true) :
    runCommands E s cs = .awaiting s := by
  induction cs with
  | nil => rfl
  | cons c cs ih =>
    have hc : isPeripheral c = true := h c (List.mem_cons_self c cs)
    have hrest : ∀ x ∈ cs, isPeripheral x = true := fun x hx => h x (List.mem_cons_of_mem c hx)
    cases c with
    | showBoard => simpa [runCommands, sessionStep] using ih hrest
    | printFen => simpa [runCommands, sessionStep] using ih hrest
    | help => simpa [runCommands, sessionStep] using ih hrest
    | noResponse => simp [isPeripheral] at hc
    | hintPiece => simp [isPeripheral] at hc
    | move t => simp [isPeripheral] at hc

/-- Witness for C5: a show, fen, help, show burst at the scenario prompt
leaves the scenario session untouched. -/
theorem peripheral_commands_frame_witness :
    runCommands specEngine scenarioSession [.showBoard, .printFen, .help, .showBoard] =
      .awaiting scenarioSession :=
  peripheral_commands_frame specEngine scenarioSession
    [.showBoard, .printFen, .help, .showBoard] (by decide)

/-- Claim C7: an attempted move is classified correct exactly when its
text equals, character for character and case-sensitively, the rendering
of the expected move; in the position whose expected move renders Qxd7,
the inputs qxd7 and Qxd7+ are rejected while Qxd7 resolves the ply. -/
theorem exact_match_classification :
    (∀ (Pos Mv : Type) (E : Engine Pos Mv) (s : Session Pos Mv) (t : String),
      (sessionStep E s (.move t)).1 = .again s ↔ t ≠ E.sanFromMove s.position s.nextMove) ∧
    (sessionStep specEngine qxd7Session (.move "qxd7")).1 = .again qxd7Session ∧
    (sessionStep specEngine qxd7Session (.move "Qxd7+")).1 = .again qxd7Session ∧
    (sessionStep specEngine qxd7Session (.move "Qxd7")).1 = .completed 11 := by
  refine ⟨?_, by decide, by decide, by decide⟩
  intro Pos Mv E s t
  constructor
  · intro h heq
    subst heq
    simp only [sessionStep, if_pos rfl] at h
    exact resolvePly_not_again E s _ true s h
  · intro hne
    simp [sessionStep, hne]

/-- Witness for C7: in the scenario session awaiting e5, the differently
cased text E5 is classified incorrect. -/
theorem exact_match_classification_witness :
    (sessionStep specEngine scenarioSession (.move "E5")).1 = .again scenarioSession :=
  (exact_match_classification.1 Nat String specEngine scenarioSession "E5").mpr (by decide)

/-- Claim C6: a no-input line resolves the ply with exactly the state
transition a correct attempt would make, while no printed line carries
the Correct! marker: each such line names the correct move or is the bare
completion line. -/
theorem no_input_reveal_step {Pos Mv : Type} (E : Engine Pos Mv) (s : Session Pos Mv) :
    (sessionStep E s .noResponse).1 =
      (sessionStep E s (.move (E.sanFromMove s.position s.nextMove))).1 ∧
    ∀ line ∈ (sessionStep E s .noResponse).2,
      ¬ startsWithCorrect line ∧
      ((∃ r, line =
          ("The correct move was " ++ (E.sanFromMove s.position s.nextMove ++ ". ")) ++ r) ∨
        line = "Completed this tactic.") := by
  constructor
  · have h := resolvePly_result_eq E s (E.sanFromMove s.position s.nextMove) false true
    simpa [sessionStep] using h
  · intro line hline
    cases hm : E.sanToMove (E.sanFromMove s.position s.nextMove) s.position with
    | none => simp [sessionStep, resolvePly, hm] at hline
    | some reply =>
      cases hp : E.play s.position reply with
      | none => simp [sessionStep, resolvePly, hm, hp] at hline
      | some p1 =>
        cases hr : s.remaining with
        | nil =>
          simp [sessionStep, resolvePly, hm, hp, hr] at hline
          subst hline
          exact ⟨completion_line_not_marked, Or.inr rfl⟩
        | cons respUci rest =>
          cases hu : E.uciToMove respUci p1 with
          | none => simp [sessionStep, resolvePly, hm, hp, hr, hu] at hline
          | some resp =>
            cases hp2 : E.play p1 resp with
            | none =>
              simp [sessionStep, resolvePly, hm, hp, hr, hu, hp2] at hline
              subst hline
              exact ⟨reveal_msg_not_marked _ _, Or.inl ⟨_, rfl⟩⟩
            | some p2 =>
              cases rest with
              | nil =>
                simp [sessionStep, resolvePly, hm, hp, hr, hu, hp2] at hline
                subst hline
                exact ⟨reveal_msg_not_marked _ _, Or.inl ⟨_, rfl⟩⟩
              | cons nextUci rest2 =>
                cases hu2 : E.uciToMove nextUci p2 with
                | none =>
                  simp [sessionStep, resolvePly, hm, hp, hr, hu, hp2, hu2] at hline
                  subst hline
                  exact ⟨reveal_msg_not_marked _ _, Or.inl ⟨_, rfl⟩⟩
                | some nm =>
                  simp [sessionStep, resolvePly, hm, hp, hr, hu, hp2, hu2] at hline
                  subst hline
                  exact ⟨reveal_msg_not_marked _ _, Or.inl ⟨_, rfl⟩⟩

/-- Witness for C6: the reveal line of the scenario session names e5 and
does not carry the Correct! marker. -/
theorem no_input_reveal_step_witness :
    ¬ startsWithCorrect
        ("The correct move was " ++ ("e5" ++ ". ") ++ ("White" ++ (" responds with " ++ "Nf3"))) ∧
      ((∃ r, "The correct move was " ++ ("e5" ++ ". ") ++ ("White" ++ (" responds with " ++ "Nf3")) =
          ("The correct move was " ++ ("e5" ++ ". ")) ++ r) ∨
        "The correct move was " ++ ("e5" ++ ". ") ++ ("White" ++ (" responds with " ++ "Nf3")) =
          "Completed this tactic.") :=
  (no_input_reveal_step specEngine scenarioSession).2
    ("The correct move was " ++ ("e5" ++ ". ") ++ ("White" ++ (" responds with " ++ "Nf3")))
    (by decide)

/-- Sequential move application distributes over list append. -/
theorem applyUcis_append {Pos Mv : Type} (E : Engine Pos Mv) (l1 l2 : List String) :
    ∀ p : Pos, applyUcis E p (l1 ++ l2) =
      (applyUcis E p l1).bind (fun q => applyUcis E q l2) := by
  induction l1 with
  | nil => intro p; rfl
  | cons u rest ih =>
    intro p
    cases hu : E.uciToMove u p with
    | none => simp [applyUcis, hu]
    | some m =>
      cases hp : E.play p m with
      | none => simp [applyUcis, hu, hp]
      | some p2 => simp [applyUcis, hu, hp, ih p2]

/-- A re-prompt returns the very session it started from. -/
theorem step_again_eq {Pos Mv : Type} (E : Engine Pos Mv) (s s' : Session Pos Mv)
    (c : PromptResponse) (out : List String)
    (h : sessionStep E s c = (.again s', out)) : s' = s := by
  cases c with
  | showBoard =>
    simp [sessionStep] at h
    exact h.1.symm
  | printFen =>
    simp [sessionStep] at h
    exact h.1.symm
  | help =>
    simp [sessionStep] at h
    exact h.1.symm
  | noResponse =>
    have h1 : (resolvePly E s (E.sanFromMove s.position s.nextMove) false).1 = .again s' := by
      rw [show resolvePly E s (E.sanFromMove s.position s.nextMove) false
            = sessionStep E s .noResponse from rfl, h]
    exact absurd h1 (resolvePly_not_again E s _ false s')
  | hintPiece =>
    have h1 : (resolvePly E s (E.sanFromMove s.position s.nextMove) false).1 = .again s' := by
      rw [show resolvePly E s (E.sanFromMove s.position s.nextMove) false
            = sessionStep E s .hintPiece from rfl, h]
    exact absurd h1 (resolvePly_not_again E s _ false s')
  | move t =>
    by_cases ht : t = E.sanFromMove s.position s.nextMove
    · have h1 : (resolvePly E s (E.sanFromMove s.position s.nextMove) true).1 = .again s' := by
        have hs : sessionStep E s (.move t)
            = resolvePly E s (E.sanFromMove s.position s.nextMove) true := by
          simp [sessionStep, ht]
        rw [← hs, h]
      exact absurd h1 (resolvePly_not_again E s _ true s')
    · simp [sessionStep, ht] at h
      exact h.1.symm

/-- What a successful session construction reveals about the puzzle and
the state it builds. -/
theorem sessionInit_inversion {Pos Mv : Type} (E : Engine Pos Mv) (t : ChessTactic)
    (s : Session Pos Mv) (h : sessionInit E t = some s) :
    ∃ pos0 firstUci firstMove p1 secondUci nm,
      E.fenToPosition t.fen = some pos0 ∧
      t.moves[0]? = some firstUci ∧
      E.uciToMove firstUci pos0 = some firstMove ∧
      E.play pos0 firstMove = some p1 ∧
      t.moves[1]? = some secondUci ∧
      E.uciToMove secondUci p1 = some nm ∧
      s = Session.mk p1 (t.moves.drop 2) nm (E.turn pos0) := by
  cases hf : E.fenToPosition t.fen with
  | none => simp [sessionInit, hf] at h
  | some pos0 =>
    cases h0 : t.moves[0]? with
    | none => simp [sessionInit, hf, h0] at h
    | some firstUci =>
      cases hu0 : E.uciToMove firstUci pos0 with
      | none => simp [sessionInit, hf, h0, hu0] at h
      | some firstMove =>
        cases hp0 : E.play pos0 firstMove with
        | none => simp [sessionInit, hf, h0, hu0, hp0] at h
        | some p1 =>
          cases h1 : t.moves[1]? with
          | none => simp [sessionInit, hf, h0, hu0, hp0, h1] at h
          | some secondUci =>
            cases hu1 : E.uciToMove secondUci p1 with
            | none => simp [sessionInit, hf, h0, hu0, hp0, h1, hu1] at h
            | some nm =>
              simp only [sessionInit, hf, h0, hu0, hp0, h1, hu1, Option.some.injEq] at h
              exact ⟨pos0, firstUci, firstMove, p1, secondUci, nm,
                rfl, rfl, hu0, hp0, rfl, hu1, h.symm⟩

/-- What an advancing loop iteration reveals: the ply was resolved, the
scripted reply applied, and one more move pulled as the new awaited one. -/
theorem step_next_inversion {Pos Mv : Type} (E : Engine Pos Mv) (s s' : Session Pos Mv)
    (c : PromptResponse) (out : List String)
    (h : sessionStep E s c = (.next s', out)) :
    ∃ reply p1 respUci nextUci rest2 resp p2 nm,
      E.sanToMove (E.sanFromMove s.position s.nextMove) s.position = some reply ∧
      E.play s.position reply = some p1 ∧
      s.remaining = respUci :: nextUci :: rest2 ∧
      E.uciToMove respUci p1 = some resp ∧
      E.play p1 resp = some p2 ∧
      E.uciToMove nextUci p2 = some nm ∧
      s' = Session.mk p2 rest2 nm s.theirSide := by
  have hres : ∃ b, resolvePly E s (E.sanFromMove s.position s.nextMove) b = (.next s', out) := by
    cases c with
    | showBoard => simp [sessionStep] at h
    | printFen => simp [sessionStep] at h
    | help => simp [sessionStep] at h
    | noResponse => exact ⟨false, h⟩
    | hintPiece => exact ⟨false, h⟩
    | move t =>
      by_cases ht : t = E.sanFromMove s.position s.nextMove
      · refine ⟨true, ?_⟩
        rw [← h]
        simp [sessionStep, ht]
      · simp [sessionStep, ht] at h
  obtain ⟨b, hres⟩ := hres
  cases hm : E.sanToMove (E.sanFromMove s.position s.nextMove) s.position with
  | none => simp [resolvePly, hm] at hres
  | some reply =>
    cases hp : E.play s.position reply with
    | none => simp [resolvePly, hm, hp] at hres
    | some p1 =>
      cases hr : s.remaining with
      | nil => simp [resolvePly, hm, hp, hr] at hres
      | cons respUci rest =>
        cases hu : E.uciToMove respUci p1 with
        | none => simp [resolvePly, hm, hp, hr, hu] at hres
        | some resp =>
          cases hp2 : E.play p1 resp with
          | none => simp [resolvePly, hm, hp, hr, hu, hp2] at hres
          | some p2 =>
            cases rest with
            | nil => simp [resolvePly, hm, hp, hr, hu, hp2] at hres
            | cons nextUci rest2 =>
              cases hu2 : E.uciToMove nextUci p2 with
              | none => simp [resolvePly, hm, hp, hr, hu, hp2, hu2] at hres
              | some nm =>
                simp only [resolvePly, hm, hp, hr, hu, hp2, hu2, Prod.mk.injEq,
                  StepResult.next.injEq] at hres
                exact ⟨reply, p1, respUci, nextUci, rest2, resp, p2, nm,
                  rfl, hp, rfl, hu, hp2, hu2, hres.1.symm⟩

/-- Claim C3: at every reachable point of a session, the current position
is the unique result of applying, in order, the prefix of the puzzle
moves consumed so far to the starting position, the awaited move is the
next unconsumed entry, and the iterator holds exactly the rest; every
transition preserves this. The round-trip hypothesis states that the
external engine re-reads its own rendering as the same move, as the real
chess library does. -/
theorem session_position_invariant {Pos Mv : Type} (E : Engine Pos Mv)
    (t : ChessTactic) (pos0 : Pos) (s : Session Pos Mv)
    (hrt : ∀ (p : Pos) (m : Mv), E.sanToMove (E.sanFromMove p m) p = some m)
    (hfen : E.fenToPosition t.fen = some pos0)
    (hreach : Reachable E t s) :
    SessionInv E pos0 t.moves s := by
  induction hreach with
  | init s0 hinit =>
    obtain ⟨pos0', a, m0, p1, b, nm, hf, h0, hu0, hp0, h1, hu1, hs⟩ :=
      sessionInit_inversion E t s0 hinit
    rw [hfen] at hf
    injection hf with hf
    subst hf
    subst hs
    obtain ⟨ms, hms⟩ : ∃ ms, t.moves = a :: b :: ms := by
      cases hmv : t.moves with
      | nil => rw [hmv] at h0; simp at h0
      | cons x rest =>
        cases rest with
        | nil => rw [hmv] at h1; simp at h1
        | cons y rest2 =>
          rw [hmv] at h0 h1
          simp at h0 h1
          exact ⟨rest2, by rw [h0, h1]⟩
    refine ⟨[a], b, ?_, by simp, ?_, ?_⟩
    · simp [hms]
    · simp [applyUcis, hu0, hp0]
    · exact hu1
  | again s0 s' c out hr hstep ih =>
    rw [step_again_eq E s0 s' c out hstep]
    exact ih
  | advance s0 s' c out hr hstep ih =>
    obtain ⟨consumed, pu, hsplit, hne, happly, hpend⟩ := ih
    obtain ⟨reply, p1, respUci, nextUci, rest2, resp, p2, nm, hm, hp, hrem, hu, hp2, hu2, hs'⟩ :=
      step_next_inversion E s0 s' c out hstep
    rw [hrt s0.position s0.nextMove] at hm
    injection hm with hm
    subst hm
    subst hs'
    refine ⟨consumed ++ [pu, respUci], nextUci, ?_, by simp, ?_, ?_⟩
    · rw [hsplit, hrem]
      simp
    · rw [applyUcis_append, happly]
      simp [applyUcis, hpend, hp, hu, hp2]
    · exact hu2

/-- Witness for C3: the invariant holds at the constructed session of the
four-move puzzle under the generic engine: the consumed prefix is the
single setup move. -/
theorem session_position_invariant_witness :
    SessionInv idEngine 0 evenTactic.moves (Session.mk 1 ["c", "d"] "b" .white) :=
  session_position_invariant idEngine evenTactic 0 (Session.mk 1 ["c", "d"] "b" .white)
    (fun _ _ => rfl) rfl (Reachable.init _ (by decide))

/-- Driving the loop with always-correct input over an even number of
not-yet-pulled moves completes: one scored attempt per two moves plus the
final one, every move applied in order, and the completion line printed
last with the Correct! marker. -/
theorem run_all_correct_even {Pos Mv : Type} [DecidableEq Mv] (E : Engine Pos Mv)
    (rem : List String) :
    ∀ (p : Pos) (pending : Mv) (side : Color) (fuel : Nat),
      lineOk E p pending rem = true → rem.length % 2 = 0 → rem.length / 2 + 1 ≤ fuel →
      ∃ pfin out,
        runAllCorrect E fuel (Session.mk p rem pending side) =
          .completed (rem.length / 2 + 1) pfin (out ++ ["Correct! Completed this tactic."]) ∧
        ∃ p1, E.play p pending = some p1 ∧ applyUcis E p1 rem = some pfin := by
  rcases rem with _ | ⟨r, _ | ⟨n, rest2⟩⟩
  · intro p pending side fuel hok hpar hfuel
    obtain ⟨f, rfl⟩ : ∃ f, fuel = f + 1 := ⟨fuel - 1, by omega⟩
    cases hm : E.sanToMove (E.sanFromMove p pending) p with
    | none => simp [lineOk, hm] at hok
    | some rt =>
      cases hp : E.play p pending with
      | none => simp [lineOk, hm, hp] at hok
      | some p1 =>
        simp [lineOk, hm, hp] at hok
        rw [hok] at hm
        have hstr : "Correct! " ++ "Completed this tactic." = "Correct! Completed this tactic." := by
          decide
        refine ⟨p1, [], ?_, p1, rfl, rfl⟩
        simp [runAllCorrect, sessionStep, resolvePly, hm, hp, hstr]
  · intro p pending side fuel hok hpar hfuel
    simp at hpar
  · intro p pending side fuel hok hpar hfuel
    obtain ⟨f, rfl⟩ : ∃ f, fuel = f + 1 := ⟨fuel - 1, by omega⟩
    cases hm : E.sanToMove (E.sanFromMove p pending) p with
    | none => simp [lineOk, hm] at hok
    | some rt =>
      cases hp : E.play p pending with
      | none => simp [lineOk, hm, hp] at hok
      | some p1 =>
        cases hu : E.uciToMove r p1 with
        | none => simp [lineOk, hm, hp, hu] at hok
        | some resp =>
          cases hp2 : E.play p1 resp with
          | none => simp [lineOk, hm, hp, hu, hp2] at hok
          | some p2 =>
            cases hu2 : E.uciToMove n p2 with
            | none => simp [lineOk, hm, hp, hu, hp2, hu2] at hok
            | some nm =>
              simp [lineOk, hm, hp, hu, hp2, hu2] at hok
              obtain ⟨hrt, hok2⟩ := hok
              rw [hrt] at hm
              have hpar2 : rest2.length % 2 = 0 := by simp at hpar; omega
              have hfuel2 : rest2.length / 2 + 1 ≤ f := by simp at hfuel; omega
              obtain ⟨pfin, out, hrun, p3, hp3, happ⟩ :=
                run_all_correct_even E rest2 p2 nm side f hok2 hpar2 hfuel2
              refine ⟨pfin,
                ("Correct! " ++ (print_side side ++ (" responds with " ++ E.sanFromMove p1 resp)))
                  :: out, ?_, p1, rfl, ?_⟩
              · have hstep : sessionStep E (Session.mk p (r :: n :: rest2) pending side)
                    (.move (E.sanFromMove p pending)) =
                    (.next (Session.mk p2 rest2 nm side),
                     ["Correct! " ++ (print_side side ++
                        (" responds with " ++ E.sanFromMove p1 resp))]) := by
                  simp [sessionStep, resolvePly, hm, hp, hu, hp2, hu2]
                have hlen : (r :: n :: rest2).length / 2 + 1 = rest2.length / 2 + 1 + 1 := by
                  simp; omega
                rw [hlen]
                simp only [runAllCorrect, hstep]
                rw [hrun]
                simp
              · simp [applyUcis, hu, hp2, hu2, hp3, happ]
termination_by rem.length
decreasing_by simp; omega

/-- Claim C1 (amended): for a puzzle whose move list has even length N
(N at least 2 is forced by construction) and plays through, the session
that always supplies the correct move reaches Completed after applying
exactly the N moves in order, with exactly N / 2 scored attempts, which
for even N equals the ceiling of (N-1)/2; the scenario puzzle e2e4 e7e5
g1f3 has odd length, and there the correct input e5 yields the opponent
reply line Correct! White responds with Nf3 followed by an abort on the
exhausted move iterator, not a direct transition to Completed. -/
theorem all_correct_session_outcome :
    (∀ (Pos Mv : Type) [_inst : DecidableEq Mv] (E : Engine Pos Mv) (t : ChessTactic)
      (pos0 : Pos) (s : Session Pos Mv),
      E.fenToPosition t.fen = some pos0 →
      sessionInit E t = some s →
      lineOk E s.position s.nextMove s.remaining = true →
      t.moves.length % 2 = 0 →
      ∃ pfin out,
        runAllCorrect E t.moves.length s =
          .completed (t.moves.length / 2) pfin (out ++ ["Correct! Completed this tactic."]) ∧
        applyUcis E pos0 t.moves = some pfin) ∧
    runAllCorrect specEngine 5 scenarioSession =
      .fatal 1 ["Correct! White responds with Nf3"] := by
  refine ⟨?_, by decide⟩
  intro Pos Mv _inst E t pos0 s hfen hinit hok hpar
  obtain ⟨pos0', a, m0, p1, b, nm, hf, h0, hu0, hp0, h1, hu1, hs⟩ :=
    sessionInit_inversion E t s hinit
  rw [hfen] at hf
  injection hf with hf
  subst hf
  subst hs
  obtain ⟨ms, hms⟩ : ∃ ms, t.moves = a :: b :: ms := by
    cases hmv : t.moves with
    | nil => rw [hmv] at h0; simp at h0
    | cons x rest =>
      cases rest with
      | nil => rw [hmv] at h1; simp at h1
      | cons y rest2 =>
        rw [hmv] at h0 h1
        simp at h0 h1
        exact ⟨rest2, by rw [h0, h1]⟩
  have hok' : lineOk E p1 nm ms = true := by
    simpa [hms] using hok
  have hpar' : ms.length % 2 = 0 := by
    rw [hms] at hpar; simp at hpar; omega
  have hfuel : ms.length / 2 + 1 ≤ t.moves.length := by
    rw [hms]; simp; omega
  obtain ⟨pfin, out, hrun, q1, hq1, happ⟩ :=
    run_all_correct_even E ms p1 nm (E.turn pos0) (t.moves.length) hok' hpar' hfuel
  have hdrop : t.moves.drop 2 = ms := by rw [hms]; rfl
  have hatt : t.moves.length / 2 = ms.length / 2 + 1 := by
    rw [hms]; simp; omega
  refine ⟨pfin, out, ?_, ?_⟩
  · rw [hatt, hdrop, hrun]
  · rw [hms]
    simp [applyUcis, hu0, hp0, hu1, hq1, happ]

/-- Counterexample to claim C1 as stated: on the three-move scenario
puzzle, the correct input e5 does not lead directly to Completed; the
session prints the opponent reply line Correct! White responds with Nf3
and then aborts on the exhausted move iterator. -/
theorem scenario_not_completed :
    sessionInit specEngine scenarioTactic = some scenarioSession ∧
    runAllCorrect specEngine 5 scenarioSession =
      .fatal 1 ["Correct! White responds with Nf3"] ∧
    (runAllCorrect specEngine 5 scenarioSession).isCompleted = false := by
  refine ⟨by decide, by decide, by decide⟩

/-- Witness for C1 (amended): the four-move puzzle under the generic
engine completes with two scored attempts and all four moves applied. -/
theorem all_correct_session_outcome_witness :
    idEngine.fenToPosition evenTactic.fen = some 0 ∧
    sessionInit idEngine evenTactic = some (Session.mk 1 ["c", "d"] "b" .white) ∧
    lineOk idEngine 1 "b" ["c", "d"] = true ∧
    evenTactic.moves.length % 2 = 0 ∧
    (∃ pfin out,
      runAllCorrect idEngine evenTactic.moves.length (Session.mk 1 ["c", "d"] "b" .white) =
        .completed (evenTactic.moves.length / 2) pfin
          (out ++ ["Correct! Completed this tactic."]) ∧
      applyUcis idEngine 0 evenTactic.moves = some pfin) :=
  ⟨rfl, by decide, by decide, by decide,
    all_correct_session_outcome.1 Nat String idEngine evenTactic 0
      (Session.mk 1 ["c", "d"] "b" .white) rfl (by decide) (by decide) (by decide)⟩

end ChessTactics
